import Mathlib

/-!
Verification of the gnolledgegraph knowledge-graph store and its transports.

The SQLite-backed graph store (package `db`, file `graph.go` together with the
schema in `internal/db/db.go`) is embedded shallowly: the three tables become
three lists inside a `DBState`, the `AUTOINCREMENT` id counters become explicit
`Nat` fields, SQLite's `PRAGMA foreign_keys = ON` checks become explicit
existence tests, and each Go function on `*sql.DB` becomes a pure function on
`DBState`.  Where a Go function runs several SQL statements, a storage-failure
oracle (`failAt : Nat → Bool`, one index per executed statement) models the
possibility that the underlying engine fails mid-way: a statement executed
through an open transaction that is rolled back leaves the pre-transaction
state, while a statement executed directly on the handle is auto-committed.
-/

namespace Gnolledge

/-- An entity row: `name TEXT PRIMARY KEY, entity_type TEXT NOT NULL`
(Go struct `db.Entity`). -/
structure Entity where
  name : String
  type : String
deriving DecidableEq, Repr

/-- A relation row: `id INTEGER PRIMARY KEY AUTOINCREMENT`, `from_entity`,
`to_entity` (both `REFERENCES entities(name)`), `relation_type`
(Go struct `db.Relation`; the Go fields `From`/`To` are spelled
`fromEntity`/`toEntity` after the SQL column names because `from` is a
Lean keyword). -/
structure Relation where
  id : Nat
  fromEntity : String
  toEntity : String
  type : String
deriving DecidableEq, Repr

/-- An observation row: `id INTEGER PRIMARY KEY AUTOINCREMENT`,
`entity_name REFERENCES entities(name)`, `content` (Go struct
`db.Observation`). -/
structure Observation where
  id : Nat
  entityName : String
  content : String
deriving DecidableEq, Repr

/-- The whole SQLite database created by `db.Init`: the three tables plus the
two `AUTOINCREMENT` sequences (SQLite's `sqlite_sequence` rows for `relations`
and `observations`; `AUTOINCREMENT` guarantees the counters never decrease and
ids are never reused, which the embedding mirrors by only ever incrementing
them). -/
structure DBState where
  entities : List Entity
  relations : List Relation
  observations : List Observation
  nextRelId : Nat
  nextObsId : Nat
deriving DecidableEq, Repr

/-- Errors surfaced by the store: `referential` stands for a
`FOREIGN KEY constraint failed` / missing-entity error (the spec's
ReferentialError), `storage` for any other failure of the underlying engine. -/
inductive DBErr where
  | referential
  | storage
deriving DecidableEq, Repr

instance {ε α : Type} [DecidableEq ε] [DecidableEq α] :
    DecidableEq (Except ε α) := fun a b =>
  match a, b with
  | .ok x, .ok y =>
    if h : x = y then .isTrue (by rw [h]) else .isFalse (by simp [h])
  | .ok _, .error _ => .isFalse (by simp)
  | .error _, .ok _ => .isFalse (by simp)
  | .error x, .error y =>
    if h : x = y then .isTrue (by rw [h]) else .isFalse (by simp [h])

/-- `SELECT EXISTS(SELECT 1 FROM entities WHERE name = ?)` — also the check
SQLite itself performs for the `REFERENCES entities(name)` constraints. -/
def entityExists (st : DBState) (n : String) : Bool :=
  st.entities.any (fun e => e.name == n)

/-- `db.CreateEntity`: `INSERT OR IGNORE INTO entities(name, entity_type)`.
A duplicate name makes the insert a no-op; the only possible error is a
storage failure, modelled by the `fail` flag. -/
def CreateEntity (fail : Bool) (st : DBState) (name ty : String) :
    DBState × Option DBErr :=
  if fail then (st, some .storage)
  else if entityExists st name then (st, none)
  else ({ st with entities := st.entities ++ [⟨name, ty⟩] }, none)

/-- `db.CreateRelation`: `INSERT INTO relations(from_entity, to_entity,
relation_type)` followed by `LastInsertId`.  With `PRAGMA foreign_keys = ON`
the insert fails when either endpoint is missing from `entities`; otherwise
the `AUTOINCREMENT` id `nextRelId` is assigned and returned. -/
def CreateRelation (fail : Bool) (st : DBState) (f t ty : String) :
    DBState × Except DBErr Nat :=
  if entityExists st f && entityExists st t then
    if fail then (st, .error .storage)
    else ({ st with
            relations := st.relations ++ [⟨st.nextRelId, f, t, ty⟩]
            nextRelId := st.nextRelId + 1 }, .ok st.nextRelId)
  else (st, .error .referential)

/-- `db.CreateObservation`: `INSERT INTO observations(entity_name, content)`
followed by `LastInsertId`; the foreign key on `entity_name` fails the insert
when the owning entity is missing. -/
def CreateObservation (st : DBState) (entityName content : String) :
    DBState × Except DBErr Nat :=
  if entityExists st entityName then
    ({ st with
        observations := st.observations ++ [⟨st.nextObsId, entityName, content⟩]
        nextObsId := st.nextObsId + 1 }, .ok st.nextObsId)
  else (st, .error .referential)

/-- Input item of `db.AddObservations` (`entityName`, `contents`). -/
structure ObsInput where
  entityName : String
  contents : String
deriving DecidableEq, Repr

/-- The state after unconditionally inserting one observation input (the
body of `db.AddObservations`'s loop once the existence check passed). -/
def insertObs (st : DBState) (i : ObsInput) : DBState :=
  { st with
    observations := st.observations ++ [⟨st.nextObsId, i.entityName, i.contents⟩]
    nextObsId := st.nextObsId + 1 }

/-- The state after inserting a whole list of observation inputs in order. -/
def insertAllObs (st : DBState) (items : List ObsInput) : DBState :=
  items.foldl insertObs st

/-- `db.AddObservations`: a plain loop over the batch, directly on the
database handle — there is no `Begin`/`Commit` in the Go function, so every
insert of an earlier item is auto-committed before a later item is examined.
Per item it checks entity existence, returns an error on the first missing
entity, otherwise inserts and collects the new `Observation`. -/
def AddObservations : DBState → List ObsInput →
    DBState × Except DBErr (List Observation)
  | st, [] => (st, .ok [])
  | st, item :: rest =>
    if entityExists st item.entityName then
      let o : Observation := ⟨st.nextObsId, item.entityName, item.contents⟩
      match AddObservations (insertObs st item) rest with
      | (st2, .ok added) => (st2, .ok (o :: added))
      | (st2, .error e) => (st2, .error e)
    else (st, .error .referential)

/-- A relation row touches one of the given names as `from_entity` or
`to_entity` (the `WHERE from_entity IN (…) OR to_entity IN (…)` predicate). -/
def relTouches (names : List String) (r : Relation) : Bool :=
  names.contains r.fromEntity || names.contains r.toEntity

/-- `db.DeleteEntities`: early return on an empty list, then one transaction
(`Begin` … `Commit`, with `defer tx.Rollback()`) executing three statements in
order: delete relations touching any name, delete observations of any name,
delete the entities.  `failAt i` says whether statement `i` fails; any failure
returns before `Commit`, so the deferred rollback leaves the original state. -/
def DeleteEntities (failAt : Nat → Bool) (st : DBState) (names : List String) :
    DBState × Option DBErr :=
  if names.isEmpty then (st, none)
  else if failAt 0 then (st, some .storage)
  else
    let st1 := { st with relations := st.relations.filter (fun r => !relTouches names r) }
    if failAt 1 then (st, some .storage)
    else
      let st2 := { st1 with observations := st1.observations.filter (fun o => !names.contains o.entityName) }
      if failAt 2 then (st, some .storage)
      else ({ st2 with entities := st2.entities.filter (fun e => !names.contains e.name) }, none)

/-- Input item of `db.DeleteRelations` (`from`, `to`, `relationType`). -/
structure RelDelete where
  fromEntity : String
  toEntity : String
  type : String
deriving DecidableEq, Repr

/-- A relation row is an exact `(from, to, type)` match for a delete item. -/
def relMatches (k : RelDelete) (r : Relation) : Bool :=
  r.fromEntity == k.fromEntity && r.toEntity == k.toEntity && r.type == k.type

/-- The loop of `db.DeleteRelations`: one `DELETE … WHERE from_entity = ? AND
to_entity = ? AND relation_type = ?` per item, executed directly on the
database handle (auto-committed, no surrounding transaction in the Go code);
the first failing statement returns its error with all earlier deletes kept. -/
def DeleteRelationsLoop (failAt : Nat → Bool) :
    DBState → List RelDelete → Nat → DBState × Option DBErr
  | st, [], _ => (st, none)
  | st, k :: rest, i =>
    if failAt i then (st, some .storage)
    else DeleteRelationsLoop failAt
      { st with relations := st.relations.filter (fun r => !relMatches k r) }
      rest (i + 1)

/-- `db.DeleteRelations`: early return on an empty list, then the per-item
loop. -/
def DeleteRelations (failAt : Nat → Bool) (st : DBState)
    (items : List RelDelete) : DBState × Option DBErr :=
  if items.isEmpty then (st, none)
  else DeleteRelationsLoop failAt st items 0

/-- `db.OpenNodes`: early return on an empty name list; otherwise
`SELECT … FROM entities WHERE name IN (names)`, then — unless no entity was
found — `SELECT … FROM relations WHERE from_entity IN (names) OR to_entity IN
(names)` (the Go code reuses the requested names, not the found entity names,
in the relation query). -/
def OpenNodes (st : DBState) (nodeNames : List String) :
    List Entity × List Relation :=
  if nodeNames.isEmpty then ([], [])
  else if (st.entities.filter (fun e => nodeNames.contains e.name)).isEmpty then
    (st.entities.filter (fun e => nodeNames.contains e.name), [])
  else
    (st.entities.filter (fun e => nodeNames.contains e.name),
     st.relations.filter (fun r => nodeNames.contains r.fromEntity || nodeNames.contains r.toEntity))

/-- Matching attempt for the `%` wildcard of SQL `LIKE`: try the rest of the
pattern at the current position and at every later suffix of the string. -/
def tryAll (f : List Char → Bool) : List Char → Bool
  | [] => f []
  | c :: s => f (c :: s) || tryAll f s

/-- SQLite `LIKE` pattern matching: `%` matches any — possibly empty — span,
`_` matches exactly one character, any other pattern character matches
case-insensitively in the ASCII range: SQLite's default `LIKE` folds both
sides through its `sqlite3UpperToLower` table, which maps the basic latin
upper-case letters to lower case and leaves every other code point alone —
exactly `Char.toLower`. -/
def likeMatch : List Char → List Char → Bool
  | [], s => s.isEmpty
  | a :: p, s =>
    if a == '%' then tryAll (likeMatch p) s
    else
      match s with
      | [] => false
      | c :: s2 => (a == '_' || Char.toLower a == Char.toLower c) && likeMatch p s2

/-- ASCII lowercasing of a string's characters: the semantics of SQLite's
`LOWER()` (ASCII-only; `Char.toLower` only folds the basic latin letters). -/
def lowerChars (s : String) : List Char := s.toList.map Char.toLower

/-- The contract of Go's `strings.ToLower` (a per-rune Unicode simple case
mapping, which the embedding carries as an abstract `goLower : Char → Char`
because its full Unicode table is external to this program) on the ASCII
range: below code point 128 the Unicode mapping coincides with ASCII
lowercasing.  Theorems about `SearchNodes` on ASCII queries assume exactly
this property of the lowering function the caller supplies. -/
def AsciiLowerCompat (goLower : Char → Char) : Prop :=
  ∀ c : Char, c.toNat < 128 → goLower c = Char.toLower c

/-- The test `LOWER(column) LIKE ?` of `db.SearchNodes` with the bound
parameter `"%" + strings.ToLower(query) + "%"`: the pattern side is lowered
by Go's Unicode `strings.ToLower` (the `goLower` parameter), the column side
by SQLite's ASCII `LOWER()`. -/
def likeContains (goLower : Char → Char) (q s : String) : Bool :=
  likeMatch (List.cons '%' (q.toList.map goLower ++ ['%'])) (lowerChars s)

/-- Literal prefix test on character lists (spec-side helper). -/
def prefixMatch : List Char → List Char → Bool
  | [], _ => true
  | _ :: _, [] => false
  | a :: p, c :: s => a == c && prefixMatch p s

/-- Literal substring test on character lists: the pattern occurs as a prefix
of some suffix (spec-side helper). -/
def containsSub (p : List Char) : List Char → Bool
  | [] => prefixMatch p []
  | c :: s => prefixMatch p (c :: s) || containsSub p s

/-- The specification's notion of matching: the query occurs in the haystack
as an (ASCII) case-insensitive substring. -/
def containsCI (hay q : String) : Bool :=
  containsSub (lowerChars q) (lowerChars hay)

/-- The `WHERE` clause of `db.SearchNodes`'s entity query, entity-wise: the
`LEFT JOIN observations` plus `DISTINCT` make an entity row qualify exactly
when its lowered name or lowered type matches the pattern, or some
observation it owns has matching lowered content. -/
def sqlEntityMatch (goLower : Char → Char) (st : DBState) (q : String)
    (e : Entity) : Bool :=
  likeContains goLower q e.name || likeContains goLower q e.type ||
    st.observations.any (fun o => o.entityName == e.name && likeContains goLower q o.content)

/-- `db.SearchNodes`: the entity query (the filter below — stored entity
names are unique by primary key, so `DISTINCT` adds nothing), then, unless no
entity matched (short-circuit), the relation query keyed by the found
entities' names: `WHERE from_entity IN (found) OR to_entity IN (found)`.
`goLower` is Go's `strings.ToLower` used to build the pattern. -/
def SearchNodes (goLower : Char → Char) (st : DBState) (q : String) :
    List Entity × List Relation :=
  if (st.entities.filter (sqlEntityMatch goLower st q)).isEmpty then
    (st.entities.filter (sqlEntityMatch goLower st q), [])
  else
    (st.entities.filter (sqlEntityMatch goLower st q),
     st.relations.filter (fun r =>
       ((st.entities.filter (sqlEntityMatch goLower st q)).map Entity.name).contains r.fromEntity ||
       ((st.entities.filter (sqlEntityMatch goLower st q)).map Entity.name).contains r.toEntity))

/-- The specification's entity-match predicate for `SearchNodes`: name, type
or some owned observation content contains the query as a case-insensitive
substring. -/
def specEntityMatch (st : DBState) (q : String) (e : Entity) : Bool :=
  containsCI e.name q || containsCI e.type q ||
    st.observations.any (fun o => o.entityName == e.name && containsCI o.content q)

/-- Number of stored entities carrying a given name. -/
def countName (st : DBState) (n : String) : Nat :=
  (st.entities.filter (fun e => e.name == n)).length

/-- The `PRIMARY KEY` invariant of the `entities` table: stored names are
pairwise distinct. -/
def NamesUnique (st : DBState) : Prop :=
  (st.entities.map Entity.name).Nodup

/-- The `AUTOINCREMENT` invariant of the `relations` table: every id SQLite
has ever handed out (in particular every stored one) is below the sequence
counter, so the counter value is fresh. -/
def RelIdsBounded (st : DBState) : Prop :=
  ∀ r ∈ st.relations, r.id < st.nextRelId

/-- The foreign-key invariant enforced by the schema (`PRAGMA foreign_keys =
ON` plus `REFERENCES entities(name)` on both relation endpoints): every stored
relation points at existing entities. -/
def RefIntegrity (st : DBState) : Prop :=
  ∀ r ∈ st.relations,
    entityExists st r.fromEntity = true ∧ entityExists st r.toEntity = true

lemma countName_eq_of_nodup (l : List Entity) (n : String)
    (h : (l.map Entity.name).Nodup) :
    (l.filter (fun e => e.name == n)).length =
      if l.any (fun e => e.name == n) then 1 else 0 := by
  induction l with
  | nil => simp
  | cons e l ih =>
    simp only [List.map_cons, List.nodup_cons] at h
    by_cases he : e.name = n
    · subst he
      have hnone : l.filter (fun x => x.name == e.name) = [] := by
        rw [List.filter_eq_nil_iff]
        intro x hx hbeq
        exact h.1 (by
          rw [beq_iff_eq] at hbeq
          rw [← hbeq]
          exact List.mem_map_of_mem Entity.name hx)
      simp [List.filter_cons, List.any_cons, hnone]
    · have hbeq : (e.name == n) = false := by
        simp [he]
      simp [List.filter_cons, List.any_cons, hbeq, ih h.2]

/-- Claim C3: for every entity name and type, calling `CreateEntity` twice
with the same name (absent a storage failure) leaves exactly one entity with
that name in the store and neither call returns an error; the only error path
of `CreateEntity` is the storage-failure one — a duplicate name never errors. -/
theorem createEntity_idempotent_no_error (st : DBState) (n ty ty2 : String)
    (h : NamesUnique st) :
    (CreateEntity false st n ty).2 = none ∧
    (CreateEntity false (CreateEntity false st n ty).1 n ty2).2 = none ∧
    countName (CreateEntity false (CreateEntity false st n ty).1 n ty2).1 n
      = 1 := by
  by_cases hex : entityExists st n = true
  · refine ⟨by simp [CreateEntity, hex], by simp [CreateEntity, hex], ?_⟩
    simp only [CreateEntity, hex, if_false, if_true, Bool.false_eq_true]
    simp only [countName]
    rw [countName_eq_of_nodup st.entities n h]
    simpa [entityExists] using hex
  · have hex' : entityExists st n = false := by
      simpa using hex
    have hfilter : st.entities.filter (fun e => e.name == n) = [] := by
      rw [List.filter_eq_nil_iff]
      intro x hx hbeq
      have : st.entities.any (fun e => e.name == n) = true :=
        List.any_eq_true.mpr ⟨x, hx, hbeq⟩
      rw [entityExists] at hex'
      simp [this] at hex'
    have hex2 : entityExists
        { st with entities := st.entities ++ [⟨n, ty⟩] } n = true := by
      simp [entityExists]
    refine ⟨by simp [CreateEntity, hex'], ?_, ?_⟩
    · simp [CreateEntity, hex', hex2]
    · simp only [CreateEntity, hex', hex2, Bool.false_eq_true, if_false,
        if_true, countName]
      simp [List.filter_append, hfilter]

/-- Witness for claim C3 at a concrete store. -/
theorem createEntity_idempotent_no_error_witness :
    (CreateEntity false
      (CreateEntity false
        (⟨[], [], [], 1, 1⟩ : DBState) "Alice" "person").1 "Alice" "person").2
      = none ∧
    countName (CreateEntity false
      (CreateEntity false
        (⟨[], [], [], 1, 1⟩ : DBState) "Alice" "person").1 "Alice" "person").1
      "Alice" = 1 := by
  have h := createEntity_idempotent_no_error
    (⟨[], [], [], 1, 1⟩ : DBState) "Alice" "person" "person"
    (by simp [NamesUnique])
  exact ⟨h.2.1, h.2.2⟩

/-- Claim C10: when an entity with the given name is already stored, a later
`CreateEntity` with the same name and any (possibly different) type succeeds
without error and leaves the whole store — the stored entity's type included —
exactly unchanged: the `INSERT OR IGNORE` drops the duplicate row instead of
updating. -/
theorem createEntity_duplicate_frame (st : DBState) (n ty2 : String)
    (h : entityExists st n = true) :
    CreateEntity false st n ty2 = (st, none) := by
  simp [CreateEntity, h]

/-- Witness for claim C10: re-creating `Alice` with a different type leaves
the store untouched. -/
theorem createEntity_duplicate_frame_witness :
    CreateEntity false
      (⟨[⟨"Alice", "person"⟩], [], [], 1, 1⟩ : DBState) "Alice" "robot"
      = ((⟨[⟨"Alice", "person"⟩], [], [], 1, 1⟩ : DBState), none) :=
  createEntity_duplicate_frame
    (⟨[⟨"Alice", "person"⟩], [], [], 1, 1⟩ : DBState) "Alice" "robot"
    (by decide)

/-- Claim C1: `DeleteEntities` removes, in order and atomically, the relations
touching any named entity, the observations owned by any named entity, and the
named entities themselves; a storage failure at any of the three statements
rolls the transaction back, leaving the store exactly as it was (zero entities
deleted), and on success everything not named (entities, untouched relations,
observations of other entities, the id counters) survives unchanged. -/
theorem deleteEntities_atomic_cascade (failAt : Nat → Bool) (st : DBState)
    (names : List String) :
    ((DeleteEntities failAt st names).2.isSome = true →
      (DeleteEntities failAt st names).1 = st) ∧
    ((DeleteEntities failAt st names).2 = none →
      (DeleteEntities failAt st names).1 =
        { st with
          entities := st.entities.filter (fun e => !names.contains e.name)
          relations := st.relations.filter (fun r => !relTouches names r)
          observations := st.observations.filter (fun o => !names.contains o.entityName) }) := by
  unfold DeleteEntities
  by_cases h0 : names.isEmpty
  · rw [List.isEmpty_iff] at h0
    subst h0
    simp [relTouches]
  · simp only [h0, if_false, Bool.false_eq_true]
    by_cases f0 : failAt 0
    · simp [f0]
    · by_cases f1 : failAt 1
      · simp [f0, f1]
      · by_cases f2 : failAt 2
        · simp [f0, f1, f2]
        · simp [f0, f1, f2]

/-- A concrete store realizing the spec §8 scenario: `Alice`, `Company`, one
relation `Alice -works_at-> Company` and one observation owned by `Alice`. -/
def stAlice : DBState :=
  ⟨[⟨"Alice", "person"⟩, ⟨"Company", "organization"⟩],
   [⟨1, "Alice", "Company", "works_at"⟩],
   [⟨1, "Alice", "knows Go"⟩], 2, 2⟩

/-- Witness for claim C1: deleting `Alice` leaves exactly `Company`, no
relations and no observations; a failure at the second statement leaves the
store untouched. -/
theorem deleteEntities_atomic_cascade_witness :
    (DeleteEntities (fun _ => false) stAlice ["Alice"]).1 =
      (⟨[⟨"Company", "organization"⟩], [], [], 2, 2⟩ : DBState) ∧
    (DeleteEntities (fun i => i == 1) stAlice ["Alice"]).1 = stAlice := by
  constructor
  · have h := (deleteEntities_atomic_cascade (fun _ => false) stAlice
      ["Alice"]).2 (by decide)
    rw [h]
    decide
  · exact (deleteEntities_atomic_cascade (fun i => i == 1) stAlice
      ["Alice"]).1 (by decide)

/-- Counterexample to claim C7 as stated: `db.DeleteRelations` runs its
per-item deletes directly on the handle with no surrounding transaction, so
when the statement for the second item fails the delete of the first item is
already committed: the call errors, yet the store differs from the initial
one — which a single enclosing transaction would forbid. -/
theorem deleteRelations_not_transactional :
    (DeleteRelations (fun i => i == 1)
        (⟨[⟨"a", "t"⟩, ⟨"b", "t"⟩, ⟨"c", "t"⟩, ⟨"d", "t"⟩],
          [⟨1, "a", "b", "t"⟩, ⟨2, "c", "d", "t"⟩], [], 3, 1⟩ : DBState)
        [⟨"a", "b", "t"⟩, ⟨"c", "d", "t"⟩]).2 = some DBErr.storage ∧
    (DeleteRelations (fun i => i == 1)
        (⟨[⟨"a", "t"⟩, ⟨"b", "t"⟩, ⟨"c", "t"⟩, ⟨"d", "t"⟩],
          [⟨1, "a", "b", "t"⟩, ⟨2, "c", "d", "t"⟩], [], 3, 1⟩ : DBState)
        [⟨"a", "b", "t"⟩, ⟨"c", "d", "t"⟩]).1.relations
      = [⟨2, "c", "d", "t"⟩] := by
  decide

lemma deleteRelationsLoop_noFail (items : List RelDelete) :
    ∀ (st : DBState) (i : Nat),
      DeleteRelationsLoop (fun _ => false) st items i =
        ({ st with relations := st.relations.filter (fun r => !items.any (fun k => relMatches k r)) },
          none) := by
  induction items with
  | nil =>
    intro st i
    simp [DeleteRelationsLoop]
  | cons k rest ih =>
    intro st i
    rw [DeleteRelationsLoop, if_neg (by simp)]
    rw [ih]
    refine Prod.ext ?_ rfl
    show ({ st with relations := _ } : DBState) = { st with relations := _ }
    simp only [List.filter_filter]
    have hpred : (fun a => (!rest.any fun k2 => relMatches k2 a) && !relMatches k a)
        = (fun r => !(k :: rest).any fun k2 => relMatches k2 r) := by
      funext r
      simp [List.any_cons, Bool.and_comm]
    rw [hpred]

/-- Claim C7 as amended: `DeleteRelations` performs an independent exact-match
delete per list item (matching on from, to and type) as separate
auto-committed statements — there is no enclosing transaction in the Go code —
and, absent storage failures, never errors: an item matching no stored
relation is simply a no-op, and nothing but exactly-matching relation rows is
touched. -/
theorem deleteRelations_per_item_no_error (st : DBState)
    (items : List RelDelete) :
    DeleteRelations (fun _ => false) st items =
      ({ st with relations := st.relations.filter (fun r => !items.any (fun k => relMatches k r)) },
        none) := by
  unfold DeleteRelations
  by_cases h : items.isEmpty
  · rw [List.isEmpty_iff] at h
    subst h
    simp
  · simp only [h, if_false, Bool.false_eq_true, deleteRelationsLoop_noFail]

/-- A store with one entity `A` and no observations, used to exercise
`AddObservations`. -/
def stA : DBState := ⟨[⟨"A", "t"⟩], [], [], 1, 1⟩

/-- Counterexample to claim C2 as stated: `db.AddObservations` loops directly
on the handle with no transaction, so with the batch
`[(A, "x"), (B, "y")]` over a store holding only `A`, the call fails (and the
caller receives no ids), yet the observation of the first item has been
applied to the store — not all-or-nothing. -/
theorem addObservations_partial_application :
    (AddObservations stA [⟨"A", "x"⟩, ⟨"B", "y"⟩]).2
        = Except.error DBErr.referential ∧
    (AddObservations stA [⟨"A", "x"⟩, ⟨"B", "y"⟩]).1.observations
        = [⟨1, "A", "x"⟩] ∧
    stA.observations = [] := by
  decide

/-- Claim C2 as amended: if any item of an `AddObservations` batch references
a missing entity, the whole call fails on the first such item and the caller
receives no ids for any item; but the call is not all-or-nothing — the
observations of every item preceding the first failing one have already been
inserted (auto-committed, there is no transaction) and remain in the store. -/
theorem addObservations_first_missing (st : DBState) (pre : List ObsInput)
    (item : ObsInput) (rest : List ObsInput)
    (hpre : ∀ j ∈ pre, entityExists st j.entityName = true)
    (hmiss : entityExists st item.entityName = false) :
    AddObservations st (pre ++ item :: rest)
      = (insertAllObs st pre, Except.error DBErr.referential) := by
  induction pre generalizing st with
  | nil =>
    simp [AddObservations, hmiss, insertAllObs]
  | cons p pre ih =>
    have hp : entityExists st p.entityName = true := hpre p (by simp)
    have hx : ∀ j ∈ pre, entityExists (insertObs st p) j.entityName = true := by
      intro j hj
      exact hpre j (by simp [hj])
    have hm : entityExists (insertObs st p) item.entityName = false := hmiss
    have hrec := ih (insertObs st p) hx hm
    rw [List.cons_append, AddObservations, if_pos hp, hrec]
    rfl

/-- Witness for the amended claim C2 at a concrete input: the first item is
applied, then `B` is found missing and the call errors without ids. -/
theorem addObservations_first_missing_witness :
    AddObservations stA [⟨"A", "x"⟩, ⟨"B", "y"⟩]
      = ((⟨[⟨"A", "t"⟩], [], [⟨1, "A", "x"⟩], 1, 2⟩ : DBState),
         Except.error DBErr.referential) := by
  have h := addObservations_first_missing stA [⟨"A", "x"⟩] ⟨"B", "y"⟩ []
    (by decide) (by decide)
  exact h.trans (by decide)

lemma strContains_iff {l : List String} {a : String} :
    l.contains a = true ↔ a ∈ l := by
  simp [List.contains, List.elem_eq_mem]

lemma entityExists_iff {st : DBState} {n : String} :
    entityExists st n = true ↔ ∃ e ∈ st.entities, e.name = n := by
  simp [entityExists]

/-- Claim C4: `CreateRelation` fails with a referential error exactly when at
least one endpoint entity is missing, leaving the store unchanged; when both
endpoints exist (and the engine does not fail) it assigns the `AUTOINCREMENT`
counter as the new id — a value distinct from every previously assigned
relation id, since assigned ids always stay below the counter — returns it,
and appends exactly the new row, keeping the counter invariant. -/
theorem createRelation_spec (fail : Bool) (st : DBState) (f t ty : String)
    (hB : RelIdsBounded st) :
    ((CreateRelation fail st f t ty).2 = Except.error DBErr.referential ↔
      (entityExists st f = false ∨ entityExists st t = false)) ∧
    ((CreateRelation fail st f t ty).2 = Except.error DBErr.referential →
      (CreateRelation fail st f t ty).1 = st) ∧
    (∀ idNew, (CreateRelation fail st f t ty).2 = Except.ok idNew →
      idNew = st.nextRelId ∧ (∀ r ∈ st.relations, r.id ≠ idNew) ∧
      RelIdsBounded (CreateRelation fail st f t ty).1 ∧
      (CreateRelation fail st f t ty).1.relations
        = st.relations ++ [⟨idNew, f, t, ty⟩]) := by
  by_cases hf : entityExists st f = true
  · by_cases ht : entityExists st t = true
    · cases fail with
      | true =>
        have hval : CreateRelation true st f t ty = (st, .error .storage) := by
          simp [CreateRelation, hf, ht]
        rw [hval]
        refine ⟨by simp [hf, ht], by simp, by intro idNew h; simp at h⟩
      | false =>
        have hval : CreateRelation false st f t ty =
            ({ st with
               relations := st.relations ++ [⟨st.nextRelId, f, t, ty⟩]
               nextRelId := st.nextRelId + 1 }, .ok st.nextRelId) := by
          simp [CreateRelation, hf, ht]
        rw [hval]
        refine ⟨by simp [hf, ht], by simp, ?_⟩
        intro idNew h
        have hid : st.nextRelId = idNew := by
          simpa using h
        subst hid
        refine ⟨rfl, fun r hr => Nat.ne_of_lt (hB r hr), ?_, rfl⟩
        intro r hr
        rcases List.mem_append.mp hr with hr | hr
        · exact Nat.lt_trans (hB r hr) (Nat.lt_succ_self _)
        · rw [List.mem_singleton.mp hr]
          exact Nat.lt_succ_self _
    · have ht' : entityExists st t = false := by simpa using ht
      have hval : CreateRelation fail st f t ty = (st, .error .referential) := by
        simp [CreateRelation, ht']
      rw [hval]
      exact ⟨by simp [ht'], by simp, by intro idNew h; simp at h⟩
  · have hf' : entityExists st f = false := by simpa using hf
    have hval : CreateRelation fail st f t ty = (st, .error .referential) := by
      simp [CreateRelation, hf']
    rw [hval]
    exact ⟨by simp [hf'], by simp, by intro idNew h; simp at h⟩

/-- Witness for claim C4: creating `Alice -knows-> Company` on the concrete
store succeeds with the fresh id `2`, unequal to the stored id `1`. -/
theorem createRelation_spec_witness :
    2 = stAlice.nextRelId ∧ (∀ r ∈ stAlice.relations, r.id ≠ 2) := by
  have h := (createRelation_spec false stAlice "Alice" "Company" "knows"
    (by unfold RelIdsBounded; decide)).2.2 2 (by decide)
  exact ⟨h.1, h.2.1⟩

/-- Claim C6: `OpenNodes` returns exactly the stored entities whose name is
among the requested names (missing names are silently dropped — the result is
a filter of the store, never an error), plus exactly the relations with an
endpoint among the returned entities; under the schema's foreign-key
invariant, filtering relations by the requested names (as the Go code does)
coincides with filtering by the returned entities.  An empty request, or one
naming only non-existent entities, yields two empty lists. -/
theorem openNodes_spec (st : DBState) (names : List String)
    (hI : RefIntegrity st) :
    (OpenNodes st names).1
        = st.entities.filter (fun e => names.contains e.name) ∧
    (∀ r, r ∈ (OpenNodes st names).2 ↔ r ∈ st.relations ∧
      ∃ e ∈ (OpenNodes st names).1,
        e.name = r.fromEntity ∨ e.name = r.toEntity) ∧
    ((∀ n ∈ names, entityExists st n = false) → OpenNodes st names = ([], [])) := by
  have hents : ∀ (hmiss : ∀ n ∈ names, entityExists st n = false),
      st.entities.filter (fun e => names.contains e.name) = [] := by
    intro hmiss
    rw [List.filter_eq_nil_iff]
    intro e he hc
    have hmem : e.name ∈ names := strContains_iff.mp hc
    have : entityExists st e.name = true :=
      entityExists_iff.mpr ⟨e, he, rfl⟩
    rw [hmiss e.name hmem] at this
    exact absurd this (by simp)
  by_cases hn : names.isEmpty
  · rw [List.isEmpty_iff] at hn
    subst hn
    refine ⟨?_, ?_, ?_⟩
    · simp [OpenNodes]
    · intro r
      simp [OpenNodes]
    · intro
      simp [OpenNodes]
  · by_cases he : (st.entities.filter (fun e => names.contains e.name)).isEmpty
    · have hval : OpenNodes st names
          = (st.entities.filter (fun e => names.contains e.name), []) := by
        unfold OpenNodes
        rw [if_neg hn, if_pos he]
      have he' : st.entities.filter (fun e => names.contains e.name) = [] :=
        List.isEmpty_iff.mp he
      refine ⟨by rw [hval], ?_, ?_⟩
      · intro r
        rw [hval]
        constructor
        · intro h
          exact absurd h (List.not_mem_nil r)
        · rintro ⟨hr, e, heMem, hor⟩
          rw [show (st.entities.filter (fun e => names.contains e.name), ([] : List Relation)).1 = st.entities.filter (fun e => names.contains e.name) from rfl, he'] at heMem
          exact absurd heMem (List.not_mem_nil e)
      · intro hmiss
        rw [hval, he']
    · have hval : OpenNodes st names
          = (st.entities.filter (fun e => names.contains e.name),
             st.relations.filter (fun r => names.contains r.fromEntity || names.contains r.toEntity)) := by
        unfold OpenNodes
        rw [if_neg hn, if_neg he]
      refine ⟨by rw [hval], ?_, ?_⟩
      · intro r
        rw [hval]
        simp only [List.mem_filter, Bool.or_eq_true]
        constructor
        · rintro ⟨hr, hor⟩
          refine ⟨hr, ?_⟩
          rcases hor with hc | hc
          · have hmem : r.fromEntity ∈ names := strContains_iff.mp hc
            rcases entityExists_iff.mp (hI r hr).1 with ⟨e, heE, hname⟩
            exact ⟨e, ⟨heE, strContains_iff.mpr (by rw [hname]; exact hmem)⟩,
              Or.inl hname⟩
          · have hmem : r.toEntity ∈ names := strContains_iff.mp hc
            rcases entityExists_iff.mp (hI r hr).2 with ⟨e, heE, hname⟩
            exact ⟨e, ⟨heE, strContains_iff.mpr (by rw [hname]; exact hmem)⟩,
              Or.inr hname⟩
        · rintro ⟨hr, e, ⟨heE, hc⟩, hor⟩
          refine ⟨hr, ?_⟩
          rcases hor with hname | hname
          · exact Or.inl (by rw [← hname]; exact hc)
          · exact Or.inr (by rw [← hname]; exact hc)
      · intro hmiss
        exact absurd (hents hmiss) (by
          intro hcontra
          rw [hcontra] at he
          simp at he)

/-- Witness for claim C6: opening `["Alice", "Ghost"]` on the concrete store
returns just `Alice` (the unknown name is dropped), and opening only the
unknown `["Ghost"]` returns two empty lists. -/
theorem openNodes_spec_witness :
    (OpenNodes stAlice ["Alice", "Ghost"]).1 = [⟨"Alice", "person"⟩] ∧
    OpenNodes stAlice ["Ghost"] = ([], []) := by
  constructor
  · have h := (openNodes_spec stAlice ["Alice", "Ghost"]
      (by unfold RefIntegrity; decide)).1
    rw [h]
    decide
  · exact (openNodes_spec stAlice ["Ghost"]
      (by unfold RefIntegrity; decide)).2.2 (by decide)

lemma tryAll_congr_sub (f g : List Char → Bool) :
    ∀ s, (∀ t, (∀ c ∈ t, c ∈ s) → f t = g t) → tryAll f s = tryAll g s
  | [], h => by rw [tryAll, tryAll, h [] (by intro c hc; cases hc)]
  | c :: s, h => by
    rw [tryAll, tryAll, h (c :: s) (fun x hx => hx),
      tryAll_congr_sub f g s
        (fun t ht => h t (fun x hx => List.mem_cons_of_mem c (ht x hx)))]

lemma containsSub_eq_tryAll (p : List Char) :
    ∀ s, containsSub p s = tryAll (prefixMatch p) s
  | [] => rfl
  | c :: s => by rw [containsSub, tryAll, containsSub_eq_tryAll p s]

lemma likeMatch_cons (a : Char) (p s : List Char) :
    likeMatch (a :: p) s =
      if a == '%' then tryAll (likeMatch p) s
      else
        match s with
        | [] => false
        | c :: s2 => (a == '_' || Char.toLower a == Char.toLower c) && likeMatch p s2 := rfl

lemma char_toNat_inj {c d : Char} (h : Char.toNat c = Char.toNat d) :
    c = d := by
  have h2 := congrArg Char.ofNat h
  rwa [Char.ofNat_toNat, Char.ofNat_toNat] at h2

lemma toLower_toNat (c : Char) :
    (Char.toLower c).toNat =
      if 65 ≤ c.toNat ∧ c.toNat ≤ 90 then c.toNat + 32 else c.toNat := by
  simp only [Char.toLower]
  split
  · rename_i hcond
    have hvalid : (Char.toNat c + 32).isValidChar := Or.inl (by omega)
    unfold Char.ofNat
    rw [dif_pos hvalid]
    rfl
  · rfl

lemma toLower_eq_self {c : Char} (h : ¬(65 ≤ c.toNat ∧ c.toNat ≤ 90)) :
    Char.toLower c = c := by
  apply char_toNat_inj
  rw [toLower_toNat, if_neg h]

lemma toLower_idem (c : Char) :
    Char.toLower (Char.toLower c) = Char.toLower c := by
  apply toLower_eq_self
  rw [toLower_toNat]
  split <;> omega

lemma lowerChars_fixed (s : String) :
    ∀ c ∈ lowerChars s, Char.toLower c = c := by
  intro c hc
  rcases List.mem_map.mp hc with ⟨c0, _, rfl⟩
  exact toLower_idem c0

lemma tryAll_likeMatch_nil : ∀ s, tryAll (likeMatch []) s = true
  | [] => rfl
  | c :: s => by rw [tryAll, tryAll_likeMatch_nil s, Bool.or_true]

lemma likeMatch_lit_percent (p : List Char)
    (hp : ∀ c ∈ p, c ≠ '%' ∧ c ≠ '_')
    (hpfix : ∀ c ∈ p, Char.toLower c = c) :
    ∀ s, (∀ c ∈ s, Char.toLower c = c) →
      likeMatch (p ++ ['%']) s = prefixMatch p s := by
  induction p with
  | nil =>
    intro s _
    show likeMatch ['%'] s = prefixMatch [] s
    rw [likeMatch_cons, if_pos (by simp), tryAll_likeMatch_nil, prefixMatch]
  | cons a p ih =>
    have ha : (a == '%') = false :=
      beq_eq_false_iff_ne.mpr (hp a (List.mem_cons_self a p)).1
    have ha2 : (a == '_') = false :=
      beq_eq_false_iff_ne.mpr (hp a (List.mem_cons_self a p)).2
    have hp2 : ∀ c ∈ p, c ≠ '%' ∧ c ≠ '_' := fun c hc =>
      hp c (List.mem_cons_of_mem a hc)
    have hafix : Char.toLower a = a := hpfix a (List.mem_cons_self a p)
    have hpfix2 : ∀ c ∈ p, Char.toLower c = c := fun c hc =>
      hpfix c (List.mem_cons_of_mem a hc)
    intro s hs
    rw [List.cons_append, likeMatch_cons,
      if_neg (by rw [ha]; exact Bool.false_ne_true)]
    cases s with
    | nil => rfl
    | cons c s =>
      show ((a == '_' || Char.toLower a == Char.toLower c)
          && likeMatch (p ++ ['%']) s)
        = prefixMatch (a :: p) (c :: s)
      rw [prefixMatch, hafix, hs c (List.mem_cons_self c s),
        ih hp2 hpfix2 s (fun x hx => hs x (List.mem_cons_of_mem c hx)),
        ha2, Bool.false_or]

lemma likeMatch_percent_wrap (p : List Char)
    (hp : ∀ c ∈ p, c ≠ '%' ∧ c ≠ '_')
    (hpfix : ∀ c ∈ p, Char.toLower c = c)
    (s : List Char) (hsfix : ∀ c ∈ s, Char.toLower c = c) :
    likeMatch (List.cons '%' (p ++ ['%'])) s = containsSub p s := by
  rw [likeMatch_cons, if_pos (by simp), containsSub_eq_tryAll]
  exact tryAll_congr_sub _ _ s
    (fun t ht => likeMatch_lit_percent p hp hpfix t
      (fun c hc => hsfix c (ht c hc)))

lemma toLower_fix_of_lt {c w : Char} (hw : w.toNat < 97)
    (h : Char.toLower c = w) : c = w := by
  by_cases hc : 65 ≤ c.toNat ∧ c.toNat ≤ 90
  · exfalso
    have h2 := congrArg Char.toNat h
    rw [toLower_toNat, if_pos hc] at h2
    omega
  · rwa [toLower_eq_self hc] at h

lemma lowerChars_noWild {q : String}
    (hq : ∀ c ∈ q.toList, c ≠ '%' ∧ c ≠ '_') :
    ∀ c ∈ lowerChars q, c ≠ '%' ∧ c ≠ '_' := by
  intro c hc
  rcases List.mem_map.mp hc with ⟨c0, hc0, rfl⟩
  exact ⟨fun h => (hq c0 hc0).1 (toLower_fix_of_lt (by decide) h),
    fun h => (hq c0 hc0).2 (toLower_fix_of_lt (by decide) h)⟩

lemma likeContains_eq_containsCI (goLower : Char → Char)
    (hgo : AsciiLowerCompat goLower) {q : String}
    (hq : ∀ c ∈ q.toList, c.toNat < 128 ∧ c ≠ '%' ∧ c ≠ '_') (s : String) :
    likeContains goLower q s = containsCI s q := by
  have hq2 : ∀ c ∈ q.toList, c ≠ '%' ∧ c ≠ '_' := fun c hc => (hq c hc).2
  have hmap : q.toList.map goLower = lowerChars q :=
    List.map_congr_left (fun c hc => hgo c (hq c hc).1)
  unfold likeContains containsCI
  rw [hmap]
  exact likeMatch_percent_wrap (lowerChars q) (lowerChars_noWild hq2)
    (lowerChars_fixed q) (lowerChars s) (lowerChars_fixed s)

lemma searchNodes_fst (goLower : Char → Char) (st : DBState) (q : String) :
    (SearchNodes goLower st q).1
      = st.entities.filter (sqlEntityMatch goLower st q) := by
  unfold SearchNodes
  split <;> rfl

/-- On an all-ASCII query every lowering that satisfies the ASCII contract of
Go's `strings.ToLower` — in particular `strings.ToLower` itself — produces
the same `SearchNodes` run as the representative `Char.toLower`, so a
concrete evaluation at `Char.toLower` on ASCII inputs is an evaluation of the
program. -/
lemma searchNodes_ascii_query_agnostic (goLower : Char → Char)
    (hgo : AsciiLowerCompat goLower) (st : DBState) (q : String)
    (hq : ∀ c ∈ q.toList, c.toNat < 128) :
    SearchNodes goLower st q = SearchNodes Char.toLower st q := by
  have hmap : q.toList.map goLower = q.toList.map Char.toLower :=
    List.map_congr_left (fun c hc => hgo c (hq c hc))
  have hlc : ∀ s, likeContains goLower q s = likeContains Char.toLower q s := by
    intro s
    unfold likeContains
    rw [hmap]
  have hsem : sqlEntityMatch goLower st q = sqlEntityMatch Char.toLower st q := by
    funext e
    unfold sqlEntityMatch
    rw [hlc, hlc]
    have hobs : (fun o : Observation =>
          o.entityName == e.name && likeContains goLower q o.content)
        = (fun o : Observation =>
          o.entityName == e.name && likeContains Char.toLower q o.content) :=
      funext fun o => by rw [hlc]
    rw [hobs]
  unfold SearchNodes
  rw [hsem]

/-- Counterexample to claim C5 as stated: `db.SearchNodes` pastes the query
into a SQL `LIKE` pattern, so a query containing the wildcard `%` matches
every entity — here the store's single entity is returned for the query `"%"`
although neither its name nor its type nor any observation (there are none)
contains `"%"` as a substring.  The run is evaluated at the representative
lowering `Char.toLower`; by `searchNodes_ascii_query_agnostic` every lowering
satisfying the ASCII contract of Go's `strings.ToLower` — hence the program —
computes the same result on this all-ASCII query. -/
theorem searchNodes_wildcard_counterexample :
    (⟨"abc", "t"⟩ : Entity) ∈
      (SearchNodes Char.toLower (⟨[⟨"abc", "t"⟩], [], [], 1, 1⟩ : DBState) "%").1 ∧
    containsCI "abc" "%" = false ∧ containsCI "t" "%" = false ∧
    (⟨[⟨"abc", "t"⟩], [], [], 1, 1⟩ : DBState).observations = [] := by
  decide

/-- Claim C5 as amended: for every ASCII query containing no SQL `LIKE`
wildcard (`%` or `_`), and for every pattern-lowering function satisfying the
ASCII contract of Go's `strings.ToLower`, `SearchNodes` returns exactly the
entities whose name, type, or at least one attached observation content
contains the query as an (ASCII) case-insensitive substring — an entity
whose only match is in an observation's content is returned — plus exactly
the relations whose from or to endpoint is among the returned entities.
Queries containing `%` or `_` are instead interpreted as `LIKE` patterns
(see the counterexample), and for non-ASCII queries Go's Unicode lowering of
the pattern diverges from SQLite's ASCII-only `LOWER`/`LIKE` folding of the
column, so no case-insensitivity is promised there. -/
theorem searchNodes_substring_spec (goLower : Char → Char)
    (hgo : AsciiLowerCompat goLower) (st : DBState) (q : String)
    (hq : ∀ c ∈ q.toList, c.toNat < 128 ∧ c ≠ '%' ∧ c ≠ '_') :
    (∀ e, e ∈ (SearchNodes goLower st q).1 ↔
      e ∈ st.entities ∧ specEntityMatch st q e = true) ∧
    (∀ r, r ∈ (SearchNodes goLower st q).2 ↔ r ∈ st.relations ∧
      ∃ e ∈ (SearchNodes goLower st q).1,
        e.name = r.fromEntity ∨ e.name = r.toEntity) := by
  have hmatch : ∀ e, sqlEntityMatch goLower st q e = specEntityMatch st q e := by
    intro e
    unfold sqlEntityMatch specEntityMatch
    rw [likeContains_eq_containsCI goLower hgo hq,
      likeContains_eq_containsCI goLower hgo hq]
    have hobs : (fun o : Observation =>
          o.entityName == e.name && likeContains goLower q o.content)
        = (fun o : Observation =>
          o.entityName == e.name && containsCI o.content q) :=
      funext fun o => by rw [likeContains_eq_containsCI goLower hgo hq]
    rw [hobs]
  constructor
  · intro e
    rw [searchNodes_fst, List.mem_filter, hmatch]
  · intro r
    by_cases hempty : (st.entities.filter (sqlEntityMatch goLower st q)).isEmpty
    · have hnil : st.entities.filter (sqlEntityMatch goLower st q) = [] :=
        List.isEmpty_iff.mp hempty
      have h2 : (SearchNodes goLower st q).2 = [] := by
        unfold SearchNodes
        rw [if_pos hempty]
      rw [h2, searchNodes_fst, hnil]
      constructor
      · intro h
        exact absurd h (List.not_mem_nil r)
      · rintro ⟨hr, e, heMem, hor⟩
        exact absurd heMem (List.not_mem_nil e)
    · have h2 : (SearchNodes goLower st q).2 = st.relations.filter (fun r =>
          ((st.entities.filter (sqlEntityMatch goLower st q)).map Entity.name).contains r.fromEntity ||
          ((st.entities.filter (sqlEntityMatch goLower st q)).map Entity.name).contains r.toEntity) := by
        unfold SearchNodes
        rw [if_neg hempty]
      rw [h2, searchNodes_fst]
      simp only [List.mem_filter, Bool.or_eq_true]
      constructor
      · rintro ⟨hr, hor⟩
        refine ⟨hr, ?_⟩
        rcases hor with hc | hc
        · rcases List.mem_map.mp (strContains_iff.mp hc) with ⟨e, heE, hname⟩
          exact ⟨e, List.mem_filter.mp heE, Or.inl hname⟩
        · rcases List.mem_map.mp (strContains_iff.mp hc) with ⟨e, heE, hname⟩
          exact ⟨e, List.mem_filter.mp heE, Or.inr hname⟩
      · rintro ⟨hr, e, heMem, hor⟩
        refine ⟨hr, ?_⟩
        rcases hor with hname | hname
        · exact Or.inl (strContains_iff.mpr
            (hname ▸ List.mem_map_of_mem Entity.name (List.mem_filter.mpr heMem)))
        · exact Or.inr (strContains_iff.mpr
            (hname ▸ List.mem_map_of_mem Entity.name (List.mem_filter.mpr heMem)))

/-- Witness for the amended claim C5: against a store whose entity `Go` has
the observation `"a programming language"`, the query `"PROGRAMMING"`
(uppercase, ASCII, wildcard-free) returns `Go`, although neither its name nor
its type contains the substring; the lowering is instantiated with
`Char.toLower`, which satisfies the ASCII contract definitionally. -/
theorem searchNodes_substring_spec_witness :
    (⟨"Go", "language2"⟩ : Entity) ∈
      (SearchNodes Char.toLower
        (⟨[⟨"Go", "language2"⟩], [], [⟨1, "Go", "a programming language"⟩],
          1, 2⟩ : DBState) "PROGRAMMING").1 := by
  have h := (searchNodes_substring_spec Char.toLower (fun c _ => rfl)
    (⟨[⟨"Go", "language2"⟩], [], [⟨1, "Go", "a programming language"⟩],
      1, 2⟩ : DBState) "PROGRAMMING" (by decide)).1 ⟨"Go", "language2"⟩
  exact h.mpr ⟨by decide, by decide⟩

/-- A JSON-RPC request id: the Go side stores `interface{}` and only compares
it against `nil`; a JSON number or string id both count as present. -/
inductive RpcId where
  | num (n : Int)
  | str (s : String)
deriving DecidableEq, Repr

/-- The decoded request envelope (`mcp.JSONRPCRequest`).  `id = none` models
the Go field `ID == nil`, which `encoding/json` produces both when the `id`
key is absent and when it is JSON `null` — exactly the notification cases.
`params` is carried opaquely to the dispatcher and never inspected by the
transport, so it is elided here. -/
structure JSONRPCRequest where
  method : String
  id : Option RpcId
deriving DecidableEq, Repr

/-- One line read by `handleStdioMCP`: empty, JSON that failed to decode, or
a well-formed request. -/
inductive StdioLine where
  | blank
  | malformed
  | request (req : JSONRPCRequest)

/-- The body of `handleStdioMCP`'s scanner loop for one input line, for an
arbitrary dispatcher (`mcp.HandleJSONRPCMethod` curried with the database):
blank lines and undecodable JSON are skipped (the malformed case is logged);
for a well-formed request the dispatcher is always invoked — its state effect
always happens — but the encoded response line is written only when `req.ID`
is non-nil. -/
def processStdioLine (dispatch : JSONRPCRequest → DBState → DBState × String)
    (st : DBState) : StdioLine → DBState × List String
  | .blank => (st, [])
  | .malformed => (st, [])
  | .request req =>
    match req.id with
    | some _ => ((dispatch req st).1, [(dispatch req st).2])
    | none => ((dispatch req st).1, [])

/-- Claim C8: for every well-formed request line whose id is absent or null,
the stdio transport writes no response line, yet still invokes the dispatcher
so the request's side effects reach the store; when the id is present and
non-null, exactly one response line is written. -/
theorem stdio_notification_semantics
    (dispatch : JSONRPCRequest → DBState → DBState × String)
    (st : DBState) (req : JSONRPCRequest) :
    (req.id = none →
      processStdioLine dispatch st (.request req) = ((dispatch req st).1, [])) ∧
    (∀ i, req.id = some i →
      processStdioLine dispatch st (.request req)
        = ((dispatch req st).1, [(dispatch req st).2])) := by
  constructor
  · intro h
    simp [processStdioLine, h]
  · intro i h
    simp [processStdioLine, h]

/-- A concrete dispatcher that creates the entity `Alice` whatever the
request says — enough to observe that notifications still cause side
effects. -/
def demoDispatch (_ : JSONRPCRequest) (st : DBState) : DBState × String :=
  ((CreateEntity false st "Alice" "person").1, "response")

/-- Witness for claim C8: a notification (no id) produces no output line
while its entity creation is applied; the same request with an id produces
one line. -/
theorem stdio_notification_semantics_witness :
    processStdioLine demoDispatch (⟨[], [], [], 1, 1⟩ : DBState)
        (.request ⟨"tools/call", none⟩)
      = ((demoDispatch ⟨"tools/call", none⟩ (⟨[], [], [], 1, 1⟩ : DBState)).1,
         []) ∧
    (demoDispatch ⟨"tools/call", none⟩
        (⟨[], [], [], 1, 1⟩ : DBState)).1.entities
      = [⟨"Alice", "person"⟩] ∧
    processStdioLine demoDispatch (⟨[], [], [], 1, 1⟩ : DBState)
        (.request ⟨"tools/call", some (.num 7)⟩)
      = ((demoDispatch ⟨"tools/call", some (.num 7)⟩
            (⟨[], [], [], 1, 1⟩ : DBState)).1, ["response"]) := by
  refine ⟨(stdio_notification_semantics demoDispatch _ _).1 rfl, by decide, ?_⟩
  exact (stdio_notification_semantics demoDispatch
    (⟨[], [], [], 1, 1⟩ : DBState) ⟨"tools/call", some (.num 7)⟩).2
    (.num 7) rfl

/-- An SSE session of the `mcp` package (`internal/mcp/handler.go`, struct
`MCPSession`): the dispatch-relevant state is the buffered `messageChan`
(created as `make(chan JSONRPCRequest, 10)`, here the list of queued
requests) and the `initialized` flag; the `writer`/`flusher`/`done` fields
are connection handles with no data content and are not represented. -/
structure MCPSession where
  messageChan : List JSONRPCRequest
  initialized : Bool
deriving DecidableEq, Repr

/-- Capacity of a session's inbound channel: `make(chan JSONRPCRequest, 10)`
in `handleSSEConnection`. -/
def messageChanCap : Nat := 10

/-- The body of a POST to `/messages` as `handleJSONRPCMessage` sees it:
either JSON that fails to decode, or a decoded `JSONRPCRequest` whose
`jsonrpc` version field is carried alongside (the transport checks it; the
rest of the envelope is the request passed on to the session). -/
inductive PostBody where
  | badJSON
  | decoded (jsonrpc : String) (req : JSONRPCRequest)

/-- `handleJSONRPCMessage` (`internal/mcp/handler.go`): reads the
`X-Session-ID` header (Go's `Header.Get` yields `""` when the header is
absent) and answers 400 on a missing id, 400 on undecodable JSON, 400 on a
`jsonrpc` version other than `"2.0"`; then looks the session up in
`sessionManager.sessions` under the read lock and answers 404
("session not found") on a miss; on a hit it sends the request into the
session's `messageChan` — modelled as succeeding exactly when the buffer has
room — answering 202, or 503 ("session busy") when the 5-second send times
out because the channel is full.  The paired registry result is the updated
session map; a request reaches `HandleJSONRPCMethod` (the dispatcher) only by
being enqueued here and later drained by the session's SSE loop. -/
def handleJSONRPCMessage (sessions : List (String × MCPSession))
    (sessionID : String) (body : PostBody) :
    List (String × MCPSession) × Nat :=
  if sessionID == "" then (sessions, 400)
  else
    match body with
    | .badJSON => (sessions, 400)
    | .decoded jsonrpc req =>
      if !(jsonrpc == "2.0") then (sessions, 400)
      else
        match sessions.lookup sessionID with
        | none => (sessions, 404)
        | some s =>
          if s.messageChan.length < messageChanCap then
            (sessions.map (fun p =>
              if p.1 == sessionID then
                (p.1, { p.2 with messageChan := p.2.messageChan ++ [req] })
              else p), 202)
          else (sessions, 503)

/-- Claim C9: a well-formed POST-message call (session header present, body
decodable, protocol version `"2.0"`) presenting a session id not registered
in the session manager receives HTTP 404 and alters nothing — no session's
`messageChan` receives the request, so it can never reach the dispatcher,
which only consumes drained queue items — and since the registry is left
unchanged, a second call to the same unknown id receives 404 again. -/
theorem postMessage_unknown_session (sessions : List (String × MCPSession))
    (sid : String) (req1 req2 : JSONRPCRequest)
    (hsid : (sid == "") = false)
    (hmiss : sessions.lookup sid = none) :
    handleJSONRPCMessage sessions sid (.decoded "2.0" req1)
      = (sessions, 404) ∧
    handleJSONRPCMessage
        (handleJSONRPCMessage sessions sid (.decoded "2.0" req1)).1 sid
        (.decoded "2.0" req2)
      = (sessions, 404) := by
  have h1 : handleJSONRPCMessage sessions sid (.decoded "2.0" req1)
      = (sessions, 404) := by
    unfold handleJSONRPCMessage
    rw [if_neg (by simp [hsid])]
    show (if !("2.0" == "2.0") then (sessions, 400) else _) = _
    rw [if_neg (by simp), hmiss]
  refine ⟨h1, ?_⟩
  rw [h1]
  unfold handleJSONRPCMessage
  rw [if_neg (by simp [hsid])]
  show (if !("2.0" == "2.0") then (sessions, 400) else _) = _
  rw [if_neg (by simp), hmiss]

/-- Witness for claim C9 at a concrete session map holding only `s1`: two
successive well-formed posts to the unknown id `s2` both yield 404 and leave
the map as it was. -/
theorem postMessage_unknown_session_witness :
    handleJSONRPCMessage [("s1", ⟨[], false⟩)] "s2"
        (.decoded "2.0" ⟨"tools/call", some (.num 1)⟩)
      = ([("s1", ⟨[], false⟩)], 404) ∧
    handleJSONRPCMessage
        (handleJSONRPCMessage [("s1", ⟨[], false⟩)] "s2"
          (.decoded "2.0" ⟨"tools/call", some (.num 1)⟩)).1 "s2"
        (.decoded "2.0" ⟨"tools/list", some (.num 2)⟩)
      = ([("s1", ⟨[], false⟩)], 404) :=
  postMessage_unknown_session [("s1", ⟨[], false⟩)] "s2"
    ⟨"tools/call", some (.num 1)⟩ ⟨"tools/list", some (.num 2)⟩
    (by decide) (by decide)

end Gnolledge
